import Mathlib

/-!
Shallow embedding of the dice-expression parser and roll evaluator of the
tabletop-RPG companion app (DiceService / CharacterService), together with
proofs about the behaviour of the embedded functions.

The embedding follows the TypeScript source:
  - `parseDiceExpression` implements the two anchored regular expressions
    `^(\d*)d(\d+)([+-]\d+)?$` and
    `^(\d*)d(\d+)([+-](?:str|dex|con|int|wis|cha))?([+-]\d+)?$`
    as a deterministic character-list scanner (the regexes are deterministic:
    digit runs, a literal d, an optional sign+attribute token, an optional
    sign+digit run, end of input), including the JavaScript
    `parseInt(match[1]) || 1` defaulting of an empty or zero count group.
  - randomness is embedded as an explicit stream `g : Nat → ℚ` of outputs of
    `secureRandom()`; each `rollDie` call consumes one stream element, in call
    order.  `rollDie` performs the source's `Math.floor(u * sides) + 1` over ℚ.
  - `rollDice` returns `Except String DiceResult`, the thrown
    `Error('Invalid dice expression')` becoming the `.error` case.
Strings are ASCII in every behaviour the proofs touch; `Char.toLower`
matches the source's `toLowerCase` there.
-/

/-- The six ability keys of `Character['basicAttributes']`. -/
inductive Attr : Type
  | STR | DEX | CON | INT | WIS | CHA
  deriving DecidableEq, Repr

/-- The upper-case name of an attribute key (`STR`, `DEX`, ...). -/
def attrName : Attr → String
  | Attr.STR => "STR"
  | Attr.DEX => "DEX"
  | Attr.CON => "CON"
  | Attr.INT => "INT"
  | Attr.WIS => "WIS"
  | Attr.CHA => "CHA"

/-- The lower-case three-letter token of an attribute as it appears in a
cleaned expression (`str`, `dex`, ...). -/
def attrChars : Attr → List Char
  | Attr.STR => ['s', 't', 'r']
  | Attr.DEX => ['d', 'e', 'x']
  | Attr.CON => ['c', 'o', 'n']
  | Attr.INT => ['i', 'n', 't']
  | Attr.WIS => ['w', 'i', 's']
  | Attr.CHA => ['c', 'h', 'a']

/-- The fields of `Character` that the dice evaluator reads: the six basic
attribute scores, the three attack bonuses and the luck flag. -/
structure Resources : Type where
  meleeAtkBonus : Int
  rangedAtkBonus : Int
  spellcastingBonus : Int
  luck : Bool
  deriving DecidableEq, Repr

/-- A character context: attribute scores indexed by `Attr`, plus resources. -/
structure Character : Type where
  basicAttributes : Attr → Int
  resources : Resources

/-- `DiceExpression` as produced by `parseDiceExpression` (the parser never
sets the `advantage` / `disadvantage` / `description` fields of the source
interface, so they are omitted). -/
structure DiceExpression : Type where
  count : Nat
  sides : Nat
  modifier : Int
  attributeBonus : Option Attr
  deriving DecidableEq, Repr

/-- One entry of `DiceResult['rolls']`. -/
structure RollEntry : Type where
  die : Nat
  result : Int
  isMax : Bool
  isMin : Bool
  deriving DecidableEq, Repr

/-- One entry of `DiceResult['modifiers']`. -/
structure NamedModifier : Type where
  name : String
  value : Int
  deriving DecidableEq, Repr

/-- `DiceResult` (the wall-clock `timestamp` field is omitted). -/
structure DiceResult : Type where
  expression : String
  rolls : List RollEntry
  modifiers : List NamedModifier
  total : Int
  details : String
  deriving DecidableEq, Repr

/-- `RollRequest`; the optional booleans of the source are `Bool` here
(an absent field reads as `false` in the source's truthiness tests). -/
structure RollRequest : Type where
  expression : String
  character : Option Character
  advantage : Bool
  disadvantage : Bool

/-- The whitespace class removed by the source's `replace(/\s+/g, '')`
(ASCII part of the JavaScript `\s` class). -/
def isJsWhitespace (c : Char) : Bool :=
  c = ' ' || c = '\t' || c = '\n' || c = '\r' || c = '\x0b' || c = '\x0c'

/-- `expression.toLowerCase().replace(/\s+/g, '')` as a character list. -/
def cleanChars (s : String) : List Char :=
  (s.toList.map Char.toLower).filter (fun c => !(isJsWhitespace c))

/-- Value of a digit run, as `parseInt` computes it on an all-digit string. -/
def digitsToNat (l : List Char) : Nat :=
  l.foldl (fun n c => n * 10 + (c.toNat - 48)) 0

/-- The optional trailing `([+-]\d+)?$` group: `some` of its signed value when
the remainder is empty or exactly a sign followed by a nonempty digit run,
`none` when the remainder matches neither. -/
def parseModTail : List Char → Option Int
  | [] => some 0
  | '+' :: ds => if ds ≠ [] ∧ ds.all Char.isDigit then some (digitsToNat ds) else none
  | '-' :: ds => if ds ≠ [] ∧ ds.all Char.isDigit then some (-(digitsToNat ds : Int)) else none
  | _ => none

/-- Recognise one of the six attribute tokens. -/
def attrOfChars : List Char → Option Attr
  | ['s', 't', 'r'] => some Attr.STR
  | ['d', 'e', 'x'] => some Attr.DEX
  | ['c', 'o', 'n'] => some Attr.CON
  | ['i', 'n', 't'] => some Attr.INT
  | ['w', 'i', 's'] => some Attr.WIS
  | ['c', 'h', 'a'] => some Attr.CHA
  | _ => none

/-- The optional `([+-](?:str|dex|con|int|wis|cha))?` group: consume a sign
plus attribute token when present, returning the recognised attribute and the
remainder; otherwise consume nothing. -/
def parseAttrTail : List Char → Option Attr × List Char
  | c₀ :: c₁ :: c₂ :: c₃ :: rest =>
    if c₀ = '+' ∨ c₀ = '-' then
      match attrOfChars [c₁, c₂, c₃] with
      | some a => (some a, rest)
      | none => (none, c₀ :: c₁ :: c₂ :: c₃ :: rest)
    else (none, c₀ :: c₁ :: c₂ :: c₃ :: rest)
  | l => (none, l)

/-- The shared `^(\d*)d(\d+)` head of both regexes: the count digit run, the
sides digit run (which must be nonempty), and the remainder after them. -/
def splitDiceBody (l : List Char) : Option (List Char × List Char × List Char) :=
  let countDigits := l.takeWhile Char.isDigit
  match l.dropWhile Char.isDigit with
  | d :: rest =>
    if d = 'd' then
      let sidesDigits := rest.takeWhile Char.isDigit
      if sidesDigits = [] then none
      else some (countDigits, sidesDigits, rest.dropWhile Char.isDigit)
    else none
  | [] => none

/-- Full match of the basic regex `^(\d*)d(\d+)([+-]\d+)?$`:
raw count group value, sides, numeric modifier. -/
def parseBasicMatch (l : List Char) : Option (Nat × Nat × Int) :=
  match splitDiceBody l with
  | some (cd, sd, rest) =>
    match parseModTail rest with
    | some m => some (digitsToNat cd, digitsToNat sd, m)
    | none => none
  | none => none

/-- Full match of the complex regex
`^(\d*)d(\d+)([+-](?:str|dex|con|int|wis|cha))?([+-]\d+)?$`. -/
def parseComplexMatch (l : List Char) : Option (Nat × Nat × Option Attr × Int) :=
  match splitDiceBody l with
  | some (cd, sd, rest) =>
    let (a, rest2) := parseAttrTail rest
    match parseModTail rest2 with
    | some m => some (digitsToNat cd, digitsToNat sd, a, m)
    | none => none
  | none => none

/-- The bounds validation `count > 0 && count <= 100 && sides > 0 && sides <= 1000`. -/
def boundsOk (count sides : Nat) : Bool :=
  decide (0 < count) && decide (count ≤ 100) && decide (0 < sides) && decide (sides ≤ 1000)

/-- Count defaulting and bounds validation applied to a grammar match: the
raw count group value goes through the source's `parseInt(basicMatch[1]) || 1`
(an empty group gives `NaN`, a zero-valued group gives the falsy `0`; both
become `1`), then the bounds are checked. -/
def validateBounds (cRaw sides : Nat) (m : Int) (a : Option Attr) : Option DiceExpression :=
  let count := if cRaw = 0 then 1 else cRaw
  if boundsOk count sides then
    some { count := count, sides := sides, modifier := m, attributeBonus := a }
  else none

/-- `DiceService.parseDiceExpression`: clean, try the basic regex (a match
failing the bounds falls through, as in the source), then the complex one. -/
def parseDiceExpression (expression : String) : Option DiceExpression :=
  let cleaned := cleanChars expression
  let fromBasic :=
    match parseBasicMatch cleaned with
    | some (cRaw, sides, m) => validateBounds cRaw sides m none
    | none => none
  match fromBasic with
  | some r => some r
  | none =>
    match parseComplexMatch cleaned with
    | some (cRaw, sides, a, m) => validateBounds cRaw sides m a
    | none => none

/-- `DiceService.isValidExpression`. -/
def isValidExpression (expression : String) : Bool :=
  (parseDiceExpression expression).isSome

example : parseDiceExpression "0d6" = some { count := 1, sides := 6, modifier := 0, attributeBonus := none } := by decide
example : parseDiceExpression "101d6" = none := by decide
example : parseDiceExpression "1d0" = none := by decide
example : parseDiceExpression "1d1001" = none := by decide
example : parseDiceExpression "abc" = none := by decide
example : parseDiceExpression "1d20" = some { count := 1, sides := 20, modifier := 0, attributeBonus := none } := by decide
example : parseDiceExpression "d20" = some { count := 1, sides := 20, modifier := 0, attributeBonus := none } := by decide
example : parseDiceExpression "3d6+2" = some { count := 3, sides := 6, modifier := 2, attributeBonus := none } := by decide
example : parseDiceExpression "1d20+str+3" = some { count := 1, sides := 20, modifier := 3, attributeBonus := some Attr.STR } := by decide
example : parseDiceExpression "1D20 + STR" = some { count := 1, sides := 20, modifier := 0, attributeBonus := some Attr.STR } := by decide
example : parseDiceExpression "2d8-1" = some { count := 2, sides := 8, modifier := -1, attributeBonus := none } := by decide
example : parseDiceExpression "1d20-str" = some { count := 1, sides := 20, modifier := 0, attributeBonus := some Attr.STR } := by decide

/-- `DiceService.rollDie`: `Math.floor(secureRandom() * sides) + 1`, with the
`secureRandom()` output `u` made explicit. -/
def rollDie (sides : Nat) (u : ℚ) : Int :=
  Rat.floor (u * sides) + 1

/-- Return type of `rollWithAdvantage` / `rollWithDisadvantage`: the kept
result and a trace of both raw values. -/
structure TracedRoll : Type where
  result : Int
  details : String
  deriving DecidableEq, Repr

/-- `DiceService.rollWithAdvantage`: two draws (stream positions 0 and 1),
keep the max, trace both raw values. -/
def rollWithAdvantage (sides : Nat) (g : Nat → ℚ) : TracedRoll :=
  let roll1 := rollDie sides (g 0)
  let roll2 := rollDie sides (g 1)
  { result := max roll1 roll2,
    details := "(" ++ toString roll1 ++ ", " ++ toString roll2 ++ ")" }

/-- `DiceService.rollWithDisadvantage`: two draws, keep the min. -/
def rollWithDisadvantage (sides : Nat) (g : Nat → ℚ) : TracedRoll :=
  let roll1 := rollDie sides (g 0)
  let roll2 := rollDie sides (g 1)
  { result := min roll1 roll2,
    details := "(" ++ toString roll1 ++ ", " ++ toString roll2 ++ ")" }

/-- `CharacterService.calculateModifier`: `Math.floor((attributeValue - 10) / 2)`;
`Math.floor` of the real quotient is floor division (`Int.fdiv`). -/
def calculateModifier (attributeValue : Int) : Int :=
  Int.fdiv (attributeValue - 10) 2

/-- A `rolls` entry as `rollDice` constructs it (both construction sites of
the source build exactly these fields). -/
def mkRollEntry (sides : Nat) (result : Int) : RollEntry :=
  { die := sides, result := result,
    isMax := result == (sides : Int), isMin := result == 1 }

/-- Sign-formatted value: `${v >= 0 ? '+' : ''}${v}`. -/
def signedValue (v : Int) : String :=
  (if 0 ≤ v then "+" else "") ++ toString v

/-- `const hasAdvantage = request.advantage && parsed.sides === 20 && parsed.count === 1`. -/
def hasAdvantageFor (parsed : DiceExpression) (request : RollRequest) : Bool :=
  request.advantage && parsed.sides == 20 && parsed.count == 1

/-- `const hasDisadvantage = request.disadvantage && parsed.sides === 20 && parsed.count === 1`. -/
def hasDisadvantageFor (parsed : DiceExpression) (request : RollRequest) : Bool :=
  request.disadvantage && parsed.sides == 20 && parsed.count == 1

/-- The `rolls` array built by `rollDice`: one entry from
`rollWithAdvantage` / `rollWithDisadvantage` in advantage/disadvantage mode,
otherwise `count` entries from `rollDie`, in loop order. -/
def rollsOf (parsed : DiceExpression) (request : RollRequest) (g : Nat → ℚ) : List RollEntry :=
  if hasAdvantageFor parsed request || hasDisadvantageFor parsed request then
    let rollResult :=
      if hasAdvantageFor parsed request then rollWithAdvantage parsed.sides g
      else rollWithDisadvantage parsed.sides g
    [mkRollEntry parsed.sides rollResult.result]
  else
    (List.range parsed.count).map
      (fun i => mkRollEntry parsed.sides (rollDie parsed.sides (g i)))

/-- The `modifiers` array built by `rollDice`, in push order: the numeric
modifier when nonzero, then the attribute bonus when both an attribute was
parsed and a character was supplied, then the luck bonus when the character
has luck. -/
def modifiersOf (parsed : DiceExpression) (request : RollRequest) : List NamedModifier :=
  (if parsed.modifier ≠ 0 then [{ name := "Modifier", value := parsed.modifier }] else []) ++
  (match parsed.attributeBonus, request.character with
   | some a, some ch =>
     [{ name := attrName a ++ " Bonus", value := calculateModifier (ch.basicAttributes a) }]
   | _, _ => []) ++
  (match request.character with
   | some ch => if ch.resources.luck then [{ name := "Luck Bonus", value := 1 }] else []
   | none => [])

/-- The `total` accumulator of `rollDice`: `total += result` per roll, then
`total += value` per modifier. -/
def totalOf (rolls : List RollEntry) (modifiers : List NamedModifier) : Int :=
  modifiers.foldl (fun t m => t + m.value) (rolls.foldl (fun t r => t + r.result) 0)

/-- The `details` string built by `rollDice`: optional mode tag, the
`<count>d<sides>` spec, the single result or the bracketed list, then one
` <signed value> (<name>)` chunk per modifier. -/
def detailsOf (parsed : DiceExpression) (request : RollRequest)
    (rolls : List RollEntry) (modifiers : List NamedModifier) : String :=
  let detailsTag :=
    if hasAdvantageFor parsed request then "(Advantage) "
    else if hasDisadvantageFor parsed request then "(Disadvantage) " else ""
  let detailsRolls :=
    toString parsed.count ++ "d" ++ toString parsed.sides ++
    (match rolls with
     | [r] => " → " ++ toString r.result
     | _ => " → [" ++ String.intercalate ", " (rolls.map (fun r => toString r.result)) ++ "]")
  modifiers.foldl
    (fun d m => d ++ (" " ++ signedValue m.value ++ " (" ++ m.name ++ ")"))
    (detailsTag ++ detailsRolls)

/-- `DiceService.rollDice`.  `g` is the stream of `secureRandom()` outputs, in
call order; the thrown `Error('Invalid dice expression')` is the `.error`
case.  Normal mode consumes `g 0 .. g (count-1)`; advantage/disadvantage mode
consumes `g 0` and `g 1`. -/
def rollDice (request : RollRequest) (g : Nat → ℚ) : Except String DiceResult :=
  match parseDiceExpression request.expression with
  | none => Except.error "Invalid dice expression"
  | some parsed =>
    let rolls := rollsOf parsed request g
    let modifiers := modifiersOf parsed request
    Except.ok
      { expression := request.expression, rolls := rolls, modifiers := modifiers,
        total := totalOf rolls modifiers,
        details := detailsOf parsed request rolls modifiers }

/-- One entry of the common-rolls catalog. -/
structure CommonRoll : Type where
  label : String
  expression : String
  description : String
  deriving DecidableEq, Repr

/-- The nine base entries of `getCommonRolls`. -/
def baseRolls : List CommonRoll :=
  [ { label := "d20", expression := "1d20", description := "Basic d20 roll" },
    { label := "d4", expression := "1d4", description := "Four-sided die" },
    { label := "d6", expression := "1d6", description := "Six-sided die" },
    { label := "d8", expression := "1d8", description := "Eight-sided die" },
    { label := "d10", expression := "1d10", description := "Ten-sided die" },
    { label := "d12", expression := "1d12", description := "Twelve-sided die" },
    { label := "d100", expression := "1d100", description := "Percentile die" },
    { label := "4d6", expression := "4d6", description := "Ability score generation" },
    { label := "2d6", expression := "2d6", description := "Common damage roll" } ]

/-- The nine character-specific entries of `getCommonRolls`. -/
def characterRolls (character : Character) : List CommonRoll :=
  [ { label := "Attack (Melee)",
      expression := "1d20" ++ signedValue character.resources.meleeAtkBonus,
      description := "Melee attack roll" },
    { label := "Attack (Ranged)",
      expression := "1d20" ++ signedValue character.resources.rangedAtkBonus,
      description := "Ranged attack roll" },
    { label := "Spell Attack",
      expression := "1d20" ++ signedValue character.resources.spellcastingBonus,
      description := "Spell attack roll" },
    { label := "STR Save", expression := "1d20+STR", description := "Strength saving throw" },
    { label := "DEX Save", expression := "1d20+DEX", description := "Dexterity saving throw" },
    { label := "CON Save", expression := "1d20+CON", description := "Constitution saving throw" },
    { label := "INT Save", expression := "1d20+INT", description := "Intelligence saving throw" },
    { label := "WIS Save", expression := "1d20+WIS", description := "Wisdom saving throw" },
    { label := "CHA Save", expression := "1d20+CHA", description := "Charisma saving throw" } ]

/-- `DiceService.getCommonRolls`. -/
def getCommonRolls : Option Character → List CommonRoll
  | none => baseRolls
  | some character => baseRolls ++ characterRolls character

/-- A die roll fed with random output `0` yields face `1`. -/
theorem rollDie_zero (sides : Nat) : rollDie sides 0 = 1 := by
  simp [rollDie, Rat.floor_def']

example : Int.fdiv (-3) 2 = -2 := by decide
example : calculateModifier 7 = -2 := by decide
example : rollDie 20 (13/20) = 14 := by simp [rollDie, Rat.floor_def']
example : rollDie 20 (6/20) = 7 := by simp [rollDie, Rat.floor_def']

/-- Successful parse with a successful evaluator run: the result's fields are
the component functions applied to the parsed expression. -/
theorem rollDice_ok (request : RollRequest) (g : Nat → ℚ) (parsed : DiceExpression)
    (h : parseDiceExpression request.expression = some parsed) :
    rollDice request g = Except.ok
      { expression := request.expression,
        rolls := rollsOf parsed request g,
        modifiers := modifiersOf parsed request,
        total := totalOf (rollsOf parsed request g) (modifiersOf parsed request),
        details := detailsOf parsed request (rollsOf parsed request g) (modifiersOf parsed request) } := by
  simp [rollDice, h]

/-- Accumulating `t + f x` over a list from `a` is `a` plus the mapped sum. -/
theorem foldl_add_eq {α : Type} (f : α → Int) (l : List α) (a : Int) :
    l.foldl (fun t x => t + f x) a = a + (l.map f).sum := by
  induction l generalizing a with
  | nil => simp
  | cons x xs ih => simp [ih, add_assoc]

/-- Accumulating string chunks from `a ++ b` keeps `a` as a prefix. -/
theorem foldl_string_append {α : Type} (f : α → String) (l : List α) (a b : String) :
    l.foldl (fun d m => d ++ f m) (a ++ b) = a ++ l.foldl (fun d m => d ++ f m) b := by
  induction l generalizing b with
  | nil => rfl
  | cons x xs ih =>
    simp only [List.foldl_cons]
    rw [String.append_assoc, ih]

/-- The all-zeros random stream. -/
def gZero : Nat → ℚ := fun _ => 0

/-- C1: of the five spec inputs, four fail as claimed, but `"0d6"` parses:
the source's `parseInt(basicMatch[1]) || 1` turns the zero count group into
`1`, which then passes the bounds check, so the out-of-range count `0` is
silently replaced rather than rejected. -/
theorem parse_bounds_inputs :
    parseDiceExpression "0d6" =
      some { count := 1, sides := 6, modifier := 0, attributeBonus := none } ∧
    parseDiceExpression "101d6" = none ∧
    parseDiceExpression "1d0" = none ∧
    parseDiceExpression "1d1001" = none ∧
    parseDiceExpression "abc" = none := by
  decide

/-- C5: `rollDice` fails exactly when parsing fails, the error is the single
`Invalid dice expression` message, the failure is independent of the random
stream (no randomness is consumed), and every successfully parsed request
evaluates to a full result. -/
theorem rollDice_failure_semantics (request : RollRequest) (g g₂ : Nat → ℚ) :
    (rollDice request g = Except.error "Invalid dice expression" ↔
       parseDiceExpression request.expression = none) ∧
    ((∃ res, rollDice request g = Except.ok res) ↔
       (∃ p, parseDiceExpression request.expression = some p)) ∧
    (∀ e, rollDice request g = Except.error e → e = "Invalid dice expression") ∧
    (parseDiceExpression request.expression = none →
       rollDice request g = rollDice request g₂) := by
  cases hp : parseDiceExpression request.expression with
  | none => simp [rollDice, hp]
  | some parsed => simp [rollDice, hp]

theorem rollDice_failure_semantics_witness :
    parseDiceExpression "abc" = none ∧
    rollDice { expression := "abc", character := none, advantage := false, disadvantage := false }
        gZero =
      rollDice { expression := "abc", character := none, advantage := false, disadvantage := false }
        (fun _ => 1/2) :=
  ⟨by decide,
   (rollDice_failure_semantics
      { expression := "abc", character := none, advantage := false, disadvantage := false }
      gZero (fun _ => 1/2)).2.2.2 (by decide)⟩

/-- C4: the total field equals the sum of all roll results plus the sum of
all modifier values. -/
theorem total_eq_sum (request : RollRequest) (g : Nat → ℚ) (res : DiceResult)
    (h : rollDice request g = Except.ok res) :
    res.total = (res.rolls.map RollEntry.result).sum +
      (res.modifiers.map NamedModifier.value).sum := by
  cases hp : parseDiceExpression request.expression with
  | none => simp [rollDice, hp] at h
  | some parsed =>
    simp only [rollDice, hp] at h
    injection h with h
    subst h
    simp [totalOf, foldl_add_eq]

/-- A concrete normal-mode request used by witnesses. -/
def reqNormal : RollRequest :=
  { expression := "2d6+3", character := none, advantage := false, disadvantage := false }

/-- The result of `reqNormal` under the all-zeros stream. -/
def resNormal : DiceResult :=
  { expression := "2d6+3",
    rolls := [{ die := 6, result := 1, isMax := false, isMin := true },
              { die := 6, result := 1, isMax := false, isMin := true }],
    modifiers := [{ name := "Modifier", value := 3 }],
    total := 5,
    details := "2d6 → [1, 1] +3 (Modifier)" }

/-- Concrete evaluation of `reqNormal` under the all-zeros stream. -/
theorem rollDice_reqNormal : rollDice reqNormal gZero = Except.ok resNormal := by
  have hp : parseDiceExpression "2d6+3" =
      some { count := 2, sides := 6, modifier := 3, attributeBonus := none } := by decide
  simp only [reqNormal, rollDice, hp]
  simp [rollsOf, hasAdvantageFor, hasDisadvantageFor, modifiersOf, totalOf, detailsOf,
    mkRollEntry, rollDie, Rat.floor_def', signedValue, List.range_succ, gZero, resNormal]
  rfl

theorem total_eq_sum_witness :
    rollDice reqNormal gZero = Except.ok resNormal ∧
    resNormal.total = (resNormal.rolls.map RollEntry.result).sum +
      (resNormal.modifiers.map NamedModifier.value).sum :=
  ⟨rollDice_reqNormal, total_eq_sum reqNormal gZero resNormal rollDice_reqNormal⟩

/-- C9: the catalog without a character is exactly the nine base entries; with
a character it is those nine followed by exactly the nine character-specific
entries: the three attack rolls (`1d20` with the sign-formatted bonus) and the
six `1d20+<ATTR>` save rolls, in that order. -/
theorem common_rolls_catalog (ch : Character) :
    getCommonRolls none = baseRolls ∧
    baseRolls.length = 9 ∧
    getCommonRolls (some ch) = baseRolls ++ characterRolls ch ∧
    (characterRolls ch).length = 9 ∧
    (getCommonRolls (some ch)).take 9 = getCommonRolls none ∧
    (getCommonRolls (some ch)).drop 9 =
      [ { label := "Attack (Melee)",
          expression := "1d20" ++ signedValue ch.resources.meleeAtkBonus,
          description := "Melee attack roll" },
        { label := "Attack (Ranged)",
          expression := "1d20" ++ signedValue ch.resources.rangedAtkBonus,
          description := "Ranged attack roll" },
        { label := "Spell Attack",
          expression := "1d20" ++ signedValue ch.resources.spellcastingBonus,
          description := "Spell attack roll" },
        { label := "STR Save", expression := "1d20+STR", description := "Strength saving throw" },
        { label := "DEX Save", expression := "1d20+DEX", description := "Dexterity saving throw" },
        { label := "CON Save", expression := "1d20+CON", description := "Constitution saving throw" },
        { label := "INT Save", expression := "1d20+INT", description := "Intelligence saving throw" },
        { label := "WIS Save", expression := "1d20+WIS", description := "Wisdom saving throw" },
        { label := "CHA Save", expression := "1d20+CHA", description := "Charisma saving throw" } ] := by
  refine ⟨rfl, rfl, rfl, rfl, ?_, ?_⟩
  · exact List.take_left' rfl
  · have h : (baseRolls ++ characterRolls ch).drop 9 = characterRolls ch :=
      List.drop_left' rfl
    rw [getCommonRolls, h]
    rfl

/-- A validated match carries its bounds and fields. -/
theorem validateBounds_some {cRaw sides : Nat} {m : Int} {a : Option Attr} {p : DiceExpression}
    (h : validateBounds cRaw sides m a = some p) :
    (1 ≤ p.count ∧ p.count ≤ 100 ∧ 1 ≤ p.sides ∧ p.sides ≤ 1000) ∧
    p.sides = sides ∧ p.modifier = m ∧ p.attributeBonus = a ∧
    p.count = (if cRaw = 0 then 1 else cRaw) := by
  unfold validateBounds at h
  simp only at h
  split at h
  · rename_i h0
    split at h
    · rename_i hbounds
      injection h with h
      subst h
      simp only [boundsOk, Bool.and_eq_true, decide_eq_true_eq] at hbounds
      refine ⟨⟨?_, ?_, ?_, ?_⟩, rfl, rfl, rfl, by rw [if_pos h0]⟩ <;> (dsimp only; omega)
    · exact absurd h (by simp)
  · rename_i h0
    split at h
    · rename_i hbounds
      injection h with h
      subst h
      simp only [boundsOk, Bool.and_eq_true, decide_eq_true_eq] at hbounds
      refine ⟨⟨?_, ?_, ?_, ?_⟩, rfl, rfl, rfl, by rw [if_neg h0]⟩ <;> (dsimp only; omega)
    · exact absurd h (by simp)

/-- A successful parse satisfies the documented bounds. -/
theorem parse_some_bounds {e : String} {p : DiceExpression}
    (h : parseDiceExpression e = some p) :
    1 ≤ p.count ∧ p.count ≤ 100 ∧ 1 ≤ p.sides ∧ p.sides ≤ 1000 := by
  simp only [parseDiceExpression] at h
  split at h
  · rename_i r heq
    injection h with h
    subst h
    split at heq
    · exact (validateBounds_some heq).1
    · exact absurd heq (by simp)
  · split at h
    · exact (validateBounds_some h).1
    · exact absurd h (by simp)

/-- A random stream whose first two draws give 14 and 7 on a d20. -/
def gAdv : Nat → ℚ := fun n => if n = 0 then 13/20 else 6/20

/-- C2: on an advantage roll of `1d20` drawing 14 and 7,
`rollWithAdvantage` does produce the trace `"(14, 7)"`, but `rollDice`
discards it: the returned details string is `"(Advantage) 1d20 → 14"`,
which records only the kept result, not the two raw d20 values. -/
theorem advantage_details_drops_raw_pair :
    (rollWithAdvantage 20 gAdv).details = "(14, 7)" ∧
    rollDice { expression := "1d20", character := none, advantage := true, disadvantage := false }
        gAdv =
      Except.ok
        { expression := "1d20",
          rolls := [{ die := 20, result := 14, isMax := false, isMin := false }],
          modifiers := [], total := 14, details := "(Advantage) 1d20 → 14" } := by
  constructor
  · simp [rollWithAdvantage, rollDie, Rat.floor_def', gAdv]
    rfl
  · have hp : parseDiceExpression "1d20" =
        some { count := 1, sides := 20, modifier := 0, attributeBonus := none } := by decide
    simp only [rollDice, hp]
    simp [rollsOf, hasAdvantageFor, hasDisadvantageFor, rollWithAdvantage, rollDie,
      Rat.floor_def', mkRollEntry, modifiersOf, totalOf, detailsOf, gAdv]
    rfl

/-- Each die draw from a unit-interval random value lands in `[1, sides]`. -/
theorem rollDie_range (sides : Nat) (u : ℚ) (h0 : 0 ≤ u) (h1 : u < 1) (hs : 1 ≤ sides) :
    1 ≤ rollDie sides u ∧ rollDie sides u ≤ (sides : Int) := by
  have hspos : (0 : ℚ) < (sides : ℚ) := by exact_mod_cast hs
  constructor
  · have hnn : (0 : Int) ≤ Rat.floor (u * (sides : ℚ)) := by
      rw [Rat.le_floor]
      push_cast
      exact mul_nonneg h0 (le_of_lt hspos)
    unfold rollDie
    omega
  · have hlt : Rat.floor (u * (sides : ℚ)) < (sides : Int) := by
      by_contra hge
      push_neg at hge
      have hle := Rat.le_floor.mp hge
      push_cast at hle
      nlinarith
    unfold rollDie
    omega

/-- A constructed roll entry records the die, the result, and the max/min
flags as equalities with `sides` and `1`. -/
theorem mkRollEntry_spec (sides : Nat) (v : Int) :
    (mkRollEntry sides v).die = sides ∧ (mkRollEntry sides v).result = v ∧
    ((mkRollEntry sides v).isMax = true ↔ v = (sides : Int)) ∧
    ((mkRollEntry sides v).isMin = true ↔ v = 1) := by
  simp [mkRollEntry]

/-- Field-level reading of a successful `rollDice` run. -/
theorem rollDice_ok_fields {request : RollRequest} {g : Nat → ℚ}
    {parsed : DiceExpression} {res : DiceResult}
    (hp : parseDiceExpression request.expression = some parsed)
    (h : rollDice request g = Except.ok res) :
    res.expression = request.expression ∧
    res.rolls = rollsOf parsed request g ∧
    res.modifiers = modifiersOf parsed request ∧
    res.total = totalOf (rollsOf parsed request g) (modifiersOf parsed request) ∧
    res.details = detailsOf parsed request (rollsOf parsed request g)
      (modifiersOf parsed request) := by
  have h2 := (rollDice_ok request g parsed hp).symm.trans h
  injection h2 with h2
  subst h2
  exact ⟨rfl, rfl, rfl, rfl, rfl⟩

/-- C7: with the random source in `[0,1)`, every individual roll entry lands
in `[1, sides]`, and the `isMax` / `isMin` flags hold exactly at `sides` and
at `1` respectively. -/
theorem roll_results_in_range (request : RollRequest) (g : Nat → ℚ)
    (parsed : DiceExpression) (res : DiceResult) (r : RollEntry)
    (hp : parseDiceExpression request.expression = some parsed)
    (hg : ∀ n, 0 ≤ g n ∧ g n < 1)
    (h : rollDice request g = Except.ok res)
    (hr : r ∈ res.rolls) :
    r.die = parsed.sides ∧ 1 ≤ r.result ∧ r.result ≤ (parsed.sides : Int) ∧
    (r.isMax = true ↔ r.result = (parsed.sides : Int)) ∧
    (r.isMin = true ↔ r.result = 1) := by
  have hsides : 1 ≤ parsed.sides := (parse_some_bounds hp).2.2.1
  have hfields := rollDice_ok_fields hp h
  rw [hfields.2.1] at hr
  have key : ∃ v : Int, r = mkRollEntry parsed.sides v ∧ 1 ≤ v ∧ v ≤ (parsed.sides : Int) := by
    have h0 := rollDie_range parsed.sides (g 0) (hg 0).1 (hg 0).2 hsides
    have h1 := rollDie_range parsed.sides (g 1) (hg 1).1 (hg 1).2 hsides
    unfold rollsOf at hr
    split at hr
    · simp only [List.mem_singleton] at hr
      refine ⟨_, hr, ?_⟩
      split
      · simp only [rollWithAdvantage]
        exact ⟨le_max_of_le_left h0.1, max_le h0.2 h1.2⟩
      · simp only [rollWithDisadvantage]
        exact ⟨le_min h0.1 h1.1, min_le_of_left_le h0.2⟩
    · simp only [List.mem_map, List.mem_range] at hr
      obtain ⟨i, hi, hEq⟩ := hr
      exact ⟨_, hEq.symm, rollDie_range parsed.sides (g i) (hg i).1 (hg i).2 hsides⟩
  obtain ⟨v, hrv, hv1, hv2⟩ := key
  subst hrv
  have hspec := mkRollEntry_spec parsed.sides v
  rw [hspec.1, hspec.2.1]
  exact ⟨rfl, hv1, hv2, hspec.2.2.1, hspec.2.2.2⟩

/-- The parsed form of `reqNormal`. -/
def pNormal : DiceExpression :=
  { count := 2, sides := 6, modifier := 3, attributeBonus := none }

/-- The roll entry produced by `reqNormal` under the all-zeros stream. -/
def rEntry : RollEntry := { die := 6, result := 1, isMax := false, isMin := true }

theorem roll_results_in_range_witness :
    rEntry ∈ resNormal.rolls ∧ rEntry.die = pNormal.sides ∧ 1 ≤ rEntry.result ∧
    rEntry.result ≤ (pNormal.sides : Int) ∧
    (rEntry.isMax = true ↔ rEntry.result = (pNormal.sides : Int)) ∧
    (rEntry.isMin = true ↔ rEntry.result = 1) := by
  have hg : ∀ n, 0 ≤ gZero n ∧ gZero n < 1 := by
    intro n
    simp [gZero]
  have hmem : rEntry ∈ resNormal.rolls := by decide
  obtain ⟨h1, h2, h3, h4, h5⟩ :=
    roll_results_in_range reqNormal gZero pNormal resNormal rEntry (by decide) hg
      rollDice_reqNormal hmem
  exact ⟨hmem, h1, h2, h3, h4, h5⟩

/-- Advantage/disadvantage mode is off when the activation condition fails. -/
theorem mode_flags_false {parsed : DiceExpression} {request : RollRequest}
    (hn : ¬ (parsed.sides = 20 ∧ parsed.count = 1 ∧
      (request.advantage = true ∨ request.disadvantage = true))) :
    hasAdvantageFor parsed request = false ∧ hasDisadvantageFor parsed request = false := by
  constructor
  · rcases Bool.eq_false_or_eq_true (hasAdvantageFor parsed request) with hA | hA
    · simp only [hasAdvantageFor, Bool.and_eq_true, beq_iff_eq] at hA
      exact absurd ⟨hA.1.2, hA.2, Or.inl hA.1.1⟩ hn
    · exact hA
  · rcases Bool.eq_false_or_eq_true (hasDisadvantageFor parsed request) with hD | hD
    · simp only [hasDisadvantageFor, Bool.and_eq_true, beq_iff_eq] at hD
      exact absurd ⟨hD.1.2, hD.2, Or.inr hD.1.1⟩ hn
    · exact hD

/-- C3: advantage/disadvantage mode activates exactly when `sides = 20`,
`count = 1` and a flag is requested; in mode the single entry is the max
(advantage, which wins when both flags are set) or min (disadvantage) of the
two draws; in every other case the flags have no effect and `count` dice are
rolled in order, one entry each. -/
theorem advantage_mode_exact (request : RollRequest) (g : Nat → ℚ)
    (parsed : DiceExpression) (res : DiceResult)
    (hp : parseDiceExpression request.expression = some parsed)
    (h : rollDice request g = Except.ok res) :
    ((parsed.sides = 20 ∧ parsed.count = 1 ∧
        (request.advantage = true ∨ request.disadvantage = true)) →
       res.rolls = [mkRollEntry 20
         (if request.advantage then max (rollDie 20 (g 0)) (rollDie 20 (g 1))
          else min (rollDie 20 (g 0)) (rollDie 20 (g 1)))]) ∧
    (¬ (parsed.sides = 20 ∧ parsed.count = 1 ∧
        (request.advantage = true ∨ request.disadvantage = true)) →
       res.rolls = (List.range parsed.count).map
         (fun i => mkRollEntry parsed.sides (rollDie parsed.sides (g i))) ∧
       rollDice request g =
         rollDice { request with advantage := false, disadvantage := false } g) := by
  have hfields := rollDice_ok_fields hp h
  constructor
  · rintro ⟨h20, h1c, hor⟩
    rw [hfields.2.1]
    cases hadv : request.advantage with
    | true =>
      simp [rollsOf, hasAdvantageFor, hasDisadvantageFor, h20, h1c, hadv, rollWithAdvantage]
    | false =>
      have hdis : request.disadvantage = true := by simpa [hadv] using hor
      simp [rollsOf, hasAdvantageFor, hasDisadvantageFor, h20, h1c, hadv, hdis,
        rollWithDisadvantage]
  · intro hn
    obtain ⟨hA, hD⟩ := mode_flags_false hn
    have hA' : hasAdvantageFor parsed
        { request with advantage := false, disadvantage := false } = false := by
      simp [hasAdvantageFor]
    have hD' : hasDisadvantageFor parsed
        { request with advantage := false, disadvantage := false } = false := by
      simp [hasDisadvantageFor]
    have hrolls : rollsOf parsed request g =
        rollsOf parsed { request with advantage := false, disadvantage := false } g := by
      unfold rollsOf
      rw [hA, hD, hA', hD']
    constructor
    · rw [hfields.2.1]
      unfold rollsOf
      rw [hA, hD]
      simp
    · rw [rollDice_ok request g parsed hp,
        rollDice_ok { request with advantage := false, disadvantage := false } g parsed hp]
      have hdetails : ∀ (rl : List RollEntry) (ml : List NamedModifier),
          detailsOf parsed request rl ml =
          detailsOf parsed { request with advantage := false, disadvantage := false } rl ml := by
        intro rl ml
        unfold detailsOf
        rw [hA, hD, hA', hD']
      have hmods : modifiersOf parsed request =
          modifiersOf parsed { request with advantage := false, disadvantage := false } := rfl
      rw [← hrolls, ← hmods, ← hdetails]

/-- A concrete advantage request used by witnesses. -/
def reqAdv : RollRequest :=
  { expression := "1d20", character := none, advantage := true, disadvantage := false }

/-- Its parsed expression. -/
def pAdv : DiceExpression :=
  { count := 1, sides := 20, modifier := 0, attributeBonus := none }

/-- The result of `reqAdv` under the stream drawing 14 and 7. -/
def resAdv : DiceResult :=
  { expression := "1d20",
    rolls := [{ die := 20, result := 14, isMax := false, isMin := false }],
    modifiers := [], total := 14, details := "(Advantage) 1d20 → 14" }

/-- Concrete evaluation of `reqAdv` under the 14-then-7 stream. -/
theorem rollDice_reqAdv : rollDice reqAdv gAdv = Except.ok resAdv := by
  have hp : parseDiceExpression "1d20" = some pAdv := by decide
  simp only [reqAdv, rollDice, hp]
  simp [rollsOf, hasAdvantageFor, hasDisadvantageFor, modifiersOf, totalOf, detailsOf,
    rollWithAdvantage, rollDie, Rat.floor_def', mkRollEntry, gAdv, resAdv, pAdv]
  rfl

theorem advantage_mode_exact_witness :
    rollDice reqAdv gAdv = Except.ok resAdv ∧
    resAdv.rolls = [mkRollEntry 20
      (if reqAdv.advantage then max (rollDie 20 (gAdv 0)) (rollDie 20 (gAdv 1))
       else min (rollDie 20 (gAdv 0)) (rollDie 20 (gAdv 1)))] :=
  ⟨rollDice_reqAdv,
   (advantage_mode_exact reqAdv gAdv pAdv resAdv (by decide) rollDice_reqAdv).1
     ⟨rfl, rfl, Or.inl rfl⟩⟩

/-- C10: when both flags are requested on a parsed `1d20`, `rollDice` behaves
as pure advantage: the single entry is the max of the two draws, the details
string is tagged `"(Advantage) "`, and the disadvantage flag is ignored. -/
theorem both_flags_prefer_advantage (request : RollRequest) (g : Nat → ℚ)
    (parsed : DiceExpression) (res : DiceResult)
    (hp : parseDiceExpression request.expression = some parsed)
    (hs : parsed.sides = 20) (hc : parsed.count = 1)
    (ha : request.advantage = true) (hd : request.disadvantage = true)
    (h : rollDice request g = Except.ok res) :
    res.rolls = [mkRollEntry 20 (max (rollDie 20 (g 0)) (rollDie 20 (g 1)))] ∧
    (∃ rest, res.details = "(Advantage) " ++ rest) ∧
    rollDice request g = rollDice { request with disadvantage := false } g := by
  have hfields := rollDice_ok_fields hp h
  have hA : hasAdvantageFor parsed request = true := by
    simp [hasAdvantageFor, hs, hc, ha]
  have hA' : hasAdvantageFor parsed { request with disadvantage := false } = true := by
    simp [hasAdvantageFor, hs, hc, ha]
  refine ⟨?_, ?_, ?_⟩
  · rw [hfields.2.1]
    simp [rollsOf, hA, rollWithAdvantage, hs]
  · rw [hfields.2.2.2.2]
    unfold detailsOf
    rw [hA]
    simp only [if_true]
    exact ⟨_, foldl_string_append _ _ _ _⟩
  · rw [rollDice_ok request g parsed hp,
      rollDice_ok { request with disadvantage := false } g parsed hp]
    have hrolls : rollsOf parsed request g =
        rollsOf parsed { request with disadvantage := false } g := by
      unfold rollsOf
      rw [hA, hA']
      simp
    have hmods : modifiersOf parsed request =
        modifiersOf parsed { request with disadvantage := false } := rfl
    have hdetails : ∀ (rl : List RollEntry) (ml : List NamedModifier),
        detailsOf parsed request rl ml =
        detailsOf parsed { request with disadvantage := false } rl ml := by
      intro rl ml
      unfold detailsOf
      rw [hA, hA']
      simp
    rw [← hrolls, ← hmods, ← hdetails]

/-- A request with both flags set, used by the C10 witness. -/
def reqBoth : RollRequest :=
  { expression := "1d20", character := none, advantage := true, disadvantage := true }

/-- The result of `reqBoth` under the 14-then-7 stream. -/
def resBoth : DiceResult :=
  { expression := "1d20",
    rolls := [{ die := 20, result := 14, isMax := false, isMin := false }],
    modifiers := [], total := 14, details := "(Advantage) 1d20 → 14" }

/-- Concrete evaluation of `reqBoth`. -/
theorem rollDice_reqBoth : rollDice reqBoth gAdv = Except.ok resBoth := by
  have hp : parseDiceExpression "1d20" = some pAdv := by decide
  simp only [reqBoth, rollDice, hp]
  simp [rollsOf, hasAdvantageFor, hasDisadvantageFor, modifiersOf, totalOf, detailsOf,
    rollWithAdvantage, rollDie, Rat.floor_def', mkRollEntry, gAdv, resBoth, pAdv]
  rfl

theorem both_flags_prefer_advantage_witness :
    rollDice reqBoth gAdv = Except.ok resBoth ∧
    resBoth.rolls = [mkRollEntry 20 (max (rollDie 20 (gAdv 0)) (rollDie 20 (gAdv 1)))] ∧
    rollDice reqBoth gAdv = rollDice { reqBoth with disadvantage := false } gAdv := by
  have h := both_flags_prefer_advantage reqBoth gAdv pAdv resBoth (by decide) rfl rfl rfl rfl
    rollDice_reqBoth
  exact ⟨rollDice_reqBoth, h.1, h.2.2⟩

/-- Neither fixed modifier name collides with an attribute-bonus name. -/
theorem fixed_names_ne_attr (a : Attr) :
    "Modifier" ≠ attrName a ++ " Bonus" ∧ "Luck Bonus" ≠ attrName a ++ " Bonus" := by
  cases a <;> exact ⟨by decide, by decide⟩

/-- C6: the ability modifier is `floor((score - 10) / 2)` with mathematical
floor division (witnessed by the claimed table values and by the defining
inequalities of the floor), and the `"<ATTR> Bonus"` entry is appended exactly
when an attribute token was parsed and a character context was supplied. -/
theorem attribute_bonus_floor (request : RollRequest) (g : Nat → ℚ)
    (parsed : DiceExpression) (res : DiceResult)
    (hp : parseDiceExpression request.expression = some parsed)
    (h : rollDice request g = Except.ok res) :
    (calculateModifier 10 = 0 ∧ calculateModifier 11 = 0 ∧ calculateModifier 12 = 1 ∧
     calculateModifier 8 = -1 ∧ calculateModifier 7 = -2 ∧ calculateModifier 20 = 5 ∧
     calculateModifier 3 = -4) ∧
    (∀ score : Int, 2 * calculateModifier score ≤ score - 10 ∧
       score - 10 < 2 * calculateModifier score + 2) ∧
    (∀ a ch, parsed.attributeBonus = some a → request.character = some ch →
       ({ name := attrName a ++ " Bonus",
          value := calculateModifier (ch.basicAttributes a) } : NamedModifier) ∈
         res.modifiers) ∧
    ((parsed.attributeBonus = none ∨ request.character = none) →
       ∀ m ∈ res.modifiers, ∀ a : Attr, m.name ≠ attrName a ++ " Bonus") := by
  have hfields := rollDice_ok_fields hp h
  refine ⟨⟨by decide, by decide, by decide, by decide, by decide, by decide, by decide⟩,
    ?_, ?_, ?_⟩
  · intro score
    unfold calculateModifier
    rw [Int.fdiv_eq_ediv] <;> omega
  · intro a ch ha hch
    rw [hfields.2.2.1]
    simp [modifiersOf, ha, hch]
  · intro hnone m hm a
    rw [hfields.2.2.1] at hm
    unfold modifiersOf at hm
    have hB : (match parsed.attributeBonus, request.character with
        | some a, some ch =>
          [({ name := attrName a ++ " Bonus",
              value := calculateModifier (ch.basicAttributes a) } : NamedModifier)]
        | _, _ => ([] : List NamedModifier)) = [] := by
      rcases hnone with h1 | h1
      · rw [h1]
      · rw [h1]
        cases parsed.attributeBonus <;> rfl
    rw [hB] at hm
    simp only [List.append_nil, List.mem_append] at hm
    rcases hm with hm | hm
    · split at hm
      · simp only [List.mem_singleton] at hm
        subst hm
        exact (fixed_names_ne_attr a).1
      · simp at hm
    · rcases hc2 : request.character with _ | ch2 <;> rw [hc2] at hm
      · simp at hm
      · cases hl : ch2.resources.luck <;> simp only [hl] at hm
        · simp at hm
        · simp only [if_true, List.mem_singleton] at hm
          subst hm
          exact (fixed_names_ne_attr a).2

/-- A sample character: all scores 7, no luck. -/
def chSample : Character :=
  { basicAttributes := fun _ => 7,
    resources := { meleeAtkBonus := 2, rangedAtkBonus := -1, spellcastingBonus := 0,
                   luck := false } }

/-- A request rolling `1d20+str` with `chSample` supplied. -/
def reqAttr : RollRequest :=
  { expression := "1d20+str", character := some chSample,
    advantage := false, disadvantage := false }

/-- Its parsed expression. -/
def pAttr : DiceExpression :=
  { count := 1, sides := 20, modifier := 0, attributeBonus := some Attr.STR }

/-- The result of `reqAttr` under the all-zeros stream: score 7 gives the
floor-division modifier -2. -/
def resAttr : DiceResult :=
  { expression := "1d20+str",
    rolls := [{ die := 20, result := 1, isMax := false, isMin := true }],
    modifiers := [{ name := "STR Bonus", value := -2 }],
    total := -1, details := "1d20 → 1 -2 (STR Bonus)" }

/-- Concrete evaluation of `reqAttr`. -/
theorem rollDice_reqAttr : rollDice reqAttr gZero = Except.ok resAttr := by
  have hp : parseDiceExpression "1d20+str" = some pAttr := by decide
  have hcm : calculateModifier 7 = -2 := by decide
  simp only [reqAttr, rollDice, hp]
  simp [rollsOf, hasAdvantageFor, hasDisadvantageFor, modifiersOf, totalOf, detailsOf,
    mkRollEntry, rollDie, Rat.floor_def', signedValue, List.range_succ, gZero, resAttr,
    pAttr, chSample, hcm, attrName]
  rfl

theorem attribute_bonus_floor_witness :
    rollDice reqAttr gZero = Except.ok resAttr ∧
    ({ name := "STR Bonus", value := -2 } : NamedModifier) ∈ resAttr.modifiers := by
  refine ⟨rollDice_reqAttr, ?_⟩
  have hmem := (attribute_bonus_floor reqAttr gZero pAttr resAttr (by decide)
    rollDice_reqAttr).2.2.1 Attr.STR chSample rfl rfl
  exact hmem

/-- A digit character has code point between 48 and 57. -/
theorem digit_bounds {c : Char} (h : c.isDigit = true) :
    48 ≤ c.val.toNat ∧ c.val.toNat ≤ 57 := by
  simp only [Char.isDigit, Bool.and_eq_true, decide_eq_true_eq] at h
  exact ⟨h.1, h.2⟩

/-- Lower-casing fixes digit characters. -/
theorem toLower_digit {c : Char} (h : c.isDigit = true) : c.toLower = c := by
  obtain ⟨h1, h2⟩ := digit_bounds h
  unfold Char.toLower
  rw [if_neg]
  intro hcond
  have h65 : 65 ≤ c.val.toNat := hcond.1
  omega

/-- Digit characters are not whitespace. -/
theorem digit_not_ws {c : Char} (h : c.isDigit = true) : isJsWhitespace c = false := by
  obtain ⟨h1, h2⟩ := digit_bounds h
  cases hw : isJsWhitespace c
  · rfl
  · exfalso
    simp only [isJsWhitespace, Bool.or_eq_true, decide_eq_true_eq] at hw
    rcases hw with ((((hw | hw) | hw) | hw) | hw) | hw <;> subst hw <;>
      exact absurd h1 (by decide)

/-- Cleaning is the identity on a list of characters that lower-casing fixes
and that contains no whitespace. -/
theorem map_filter_fixed {l : List Char}
    (h : ∀ x ∈ l, x.toLower = x ∧ isJsWhitespace x = false) :
    (l.map Char.toLower).filter (fun c => !(isJsWhitespace c)) = l := by
  induction l with
  | nil => rfl
  | cons x xs ih =>
    obtain ⟨hx1, hx2⟩ := h x (List.mem_cons_self x xs)
    have hxs := ih (fun y hy => h y (List.mem_cons_of_mem x hy))
    simp [hx1, hx2, hxs]

/-- `cleanChars` is the identity on such strings. -/
theorem cleanChars_fixed {l : List Char}
    (h : ∀ x ∈ l, x.toLower = x ∧ isJsWhitespace x = false) :
    cleanChars (String.mk l) = l := by
  unfold cleanChars
  exact map_filter_fixed h

/-- `takeWhile` and `dropWhile` split an append at the first failing head. -/
theorem takeWhile_all_append (p : Char → Bool) (l t : List Char)
    (hl : ∀ x ∈ l, p x = true) (ht : ∀ x, t.head? = some x → p x = false) :
    (l ++ t).takeWhile p = l ∧ (l ++ t).dropWhile p = t := by
  induction l with
  | nil =>
    simp only [List.nil_append]
    cases t with
    | nil => simp
    | cons x xs =>
      have hx := ht x rfl
      constructor
      · simp [List.takeWhile_cons, hx]
      · simp [List.dropWhile_cons, hx]
  | cons y ys ih =>
    have hy : p y = true := hl y (List.mem_cons_self y ys)
    obtain ⟨ih1, ih2⟩ := ih (fun x hx => hl x (List.mem_cons_of_mem y hx))
    constructor
    · simp [List.takeWhile_cons, hy, ih1]
    · simp [List.dropWhile_cons, hy, ih2]

/-- The attribute recogniser accepts each token. -/
theorem attrOfChars_attrChars (a : Attr) : attrOfChars (attrChars a) = some a := by
  cases a <;> rfl

/-- A sign followed by an attribute token is not a numeric modifier tail. -/
theorem parseModTail_sign_attr (a : Attr) (sign : Char) (hsign : sign = '+' ∨ sign = '-') :
    parseModTail (sign :: attrChars a) = none := by
  rcases hsign with h | h <;> subst h <;> cases a <;> decide

/-- A sign followed by an attribute token is consumed whole by the attribute
group, leaving nothing. -/
theorem parseAttrTail_sign_attr (a : Attr) (sign : Char) (hsign : sign = '+' ∨ sign = '-') :
    parseAttrTail (sign :: attrChars a) = (some a, []) := by
  rcases hsign with h | h <;> subst h <;> cases a <;> decide

/-- Splitting the die body of `<digits>d<digits><sign><attr-token>`. -/
theorem splitDiceBody_shape (c s : List Char) (a : Attr) (sign : Char)
    (hc : ∀ x ∈ c, x.isDigit = true) (hs : ∀ x ∈ s, x.isDigit = true)
    (hsign : sign = '+' ∨ sign = '-') :
    splitDiceBody (c ++ ('d' :: (s ++ sign :: attrChars a))) =
      if s = [] then none else some (c, s, sign :: attrChars a) := by
  have hsd : Char.isDigit 'd' = false := by decide
  have hsignd : sign.isDigit = false := by
    rcases hsign with h | h <;> subst h <;> decide
  obtain ⟨ht1, ht2⟩ := takeWhile_all_append Char.isDigit c ('d' :: (s ++ sign :: attrChars a))
    hc (by intro x hx; simp only [List.head?_cons, Option.some.injEq] at hx; subst hx; decide)
  obtain ⟨hu1, hu2⟩ := takeWhile_all_append Char.isDigit s (sign :: attrChars a)
    hs (by intro x hx; simp only [List.head?_cons, Option.some.injEq] at hx; subst hx
           exact hsignd)
  simp only [splitDiceBody, ht1, ht2]
  simp [hu1, hu2]

/-- The basic regex never matches `<digits>d<digits><sign><attr-token>`. -/
theorem parseBasicMatch_sign_attr (c s : List Char) (a : Attr) (sign : Char)
    (hc : ∀ x ∈ c, x.isDigit = true) (hs : ∀ x ∈ s, x.isDigit = true)
    (hsign : sign = '+' ∨ sign = '-') :
    parseBasicMatch (c ++ ('d' :: (s ++ sign :: attrChars a))) = none := by
  simp only [parseBasicMatch, splitDiceBody_shape c s a sign hc hs hsign]
  by_cases hse : s = []
  · simp [hse]
  · simp [hse, parseModTail_sign_attr a sign hsign]

/-- The complex regex matches `<digits>d<digits><sign><attr-token>` the same
way for either sign: the token is taken as the attribute group, the numeric
modifier group is empty. -/
theorem parseComplexMatch_sign_attr (c s : List Char) (a : Attr) (sign : Char)
    (hc : ∀ x ∈ c, x.isDigit = true) (hs : ∀ x ∈ s, x.isDigit = true)
    (hsign : sign = '+' ∨ sign = '-') :
    parseComplexMatch (c ++ ('d' :: (s ++ sign :: attrChars a))) =
      if s = [] then none else some (digitsToNat c, digitsToNat s, some a, 0) := by
  simp only [parseComplexMatch, splitDiceBody_shape c s a sign hc hs hsign]
  by_cases hse : s = []
  · simp [hse]
  · simp [hse, parseAttrTail_sign_attr a sign hsign]
    rfl

/-- Every character of `<digits>d<digits><sign><attr-token>` is fixed by
cleaning. -/
theorem clean_fixed_sign_attr (c s : List Char) (a : Attr) (sign : Char)
    (hc : ∀ x ∈ c, x.isDigit = true) (hs : ∀ x ∈ s, x.isDigit = true)
    (hsign : sign = '+' ∨ sign = '-') :
    cleanChars (String.mk (c ++ ('d' :: (s ++ sign :: attrChars a)))) =
      c ++ ('d' :: (s ++ sign :: attrChars a)) := by
  apply cleanChars_fixed
  intro x hx
  simp only [List.mem_append, List.mem_cons] at hx
  rcases hx with hx | hx | hx | hx
  · exact ⟨toLower_digit (hc x hx), digit_not_ws (hc x hx)⟩
  · subst hx
    exact ⟨by decide, by decide⟩
  · exact ⟨toLower_digit (hs x hx), digit_not_ws (hs x hx)⟩
  · rcases hx with hx | hx
    · subst hx
      rcases hsign with h | h <;> subst h <;> exact ⟨by decide, by decide⟩
    · have hfix : ∀ x ∈ attrChars a, x.toLower = x ∧ isJsWhitespace x = false := by
        cases a <;> decide
      exact hfix x hx

/-- C8: for any digit strings and attribute token, `<count>d<sides>-<attr>`
parses exactly as `<count>d<sides>+<attr>`: the attribute token's leading sign
is discarded, and any successful parse carries the (positive) attribute
bonus. -/
theorem attr_sign_discarded (c s : List Char) (a : Attr)
    (hc : ∀ x ∈ c, x.isDigit = true) (hs : ∀ x ∈ s, x.isDigit = true) :
    parseDiceExpression (String.mk (c ++ ('d' :: (s ++ '-' :: attrChars a)))) =
      parseDiceExpression (String.mk (c ++ ('d' :: (s ++ '+' :: attrChars a)))) ∧
    (∀ p, parseDiceExpression (String.mk (c ++ ('d' :: (s ++ '+' :: attrChars a)))) = some p →
      p.attributeBonus = some a) := by
  have hcleanm := clean_fixed_sign_attr c s a '-' hc hs (Or.inr rfl)
  have hcleanp := clean_fixed_sign_attr c s a '+' hc hs (Or.inl rfl)
  have hbm := parseBasicMatch_sign_attr c s a '-' hc hs (Or.inr rfl)
  have hbp := parseBasicMatch_sign_attr c s a '+' hc hs (Or.inl rfl)
  have hxm := parseComplexMatch_sign_attr c s a '-' hc hs (Or.inr rfl)
  have hxp := parseComplexMatch_sign_attr c s a '+' hc hs (Or.inl rfl)
  constructor
  · simp only [parseDiceExpression, hcleanm, hcleanp, hbm, hbp, hxm, hxp]
  · intro p hp
    simp only [parseDiceExpression, hcleanp, hbp, hxp] at hp
    by_cases hse : s = []
    · rw [if_pos hse] at hp
      simp at hp
    · rw [if_neg hse] at hp
      simp only at hp
      exact (validateBounds_some hp).2.2.2.1

theorem attr_sign_discarded_witness :
    parseDiceExpression
        (String.mk (['1'] ++ ('d' :: (['2', '0'] ++ '-' :: attrChars Attr.STR)))) =
      parseDiceExpression
        (String.mk (['1'] ++ ('d' :: (['2', '0'] ++ '+' :: attrChars Attr.STR)))) ∧
    parseDiceExpression "1d20-str" = some pAttr ∧
    pAttr.attributeBonus = some Attr.STR := by
  have h := attr_sign_discarded ['1'] ['2', '0'] Attr.STR (by decide) (by decide)
  exact ⟨h.1, by decide, h.2 pAttr (by decide)⟩
